import Mathlib

/-!
Shallow embedding of the inventory-tracker item resource service:
the Express router (`router.get/post/put/delete`) over the `items`
table, together with its Zod validation schema (`ItemSchema`).

Modelling choices, each traced to the source:
* `Item` mirrors the `items(id, name, category, status, notes, created_at)`
  row; `status` is kept as a `String` (the SQL layer stores text and the
  validation layer is what constrains it), `notes` as `Option String`
  (SQL NULL = `none`), and `created_at` as a `Nat` tick assigned from a
  monotone counter (the store's default timestamp).
* The request body is a record of raw optional JSON fields.  `notes`
  distinguishes the three JSON states absent / null / string, because the
  Zod schema (`z.string().optional().nullable()`) and the merge in the
  PUT handler treat them differently.
* `safeParseCreate` embeds `ItemSchema.safeParse`: `name` and `category`
  require `min(1)`, `status` is the enum with default `"active"`, `notes`
  is passed through.  Issues from all fields are collected, as Zod does.
* `safeParseUpdate` embeds `ItemSchema.partial().safeParse`: every field
  becomes optional; an absent field is omitted from the parsed data (Zod
  omits keys whose parsed value is `undefined`), and in particular the
  `default("active")` of `status` is NOT applied, because Zod's optional
  wrapper short-circuits on `undefined` before reaching the default.
* The handlers return a `Response` and the next `Store`; the SQL
  statements (SELECT-all-ordered, INSERT RETURNING, UPDATE RETURNING,
  DELETE RETURNING) are embedded as list operations on `Store.rows`.
-/

namespace Inventory

/-- One row of the `items` table. -/
structure Item where
  id : Nat
  name : String
  category : String
  status : String
  notes : Option String
  created_at : Nat
deriving DecidableEq, Repr

/-- The persistence store: the `items` table plus the sequences the
relational store uses to assign fresh `id`s and `created_at` stamps. -/
structure Store where
  rows : List Item
  nextId : Nat
  nextTime : Nat
deriving DecidableEq, Repr

/-- The store a fresh deployment starts from. -/
def emptyStore : Store := ⟨[], 1, 0⟩

/-- The three JSON states of the `notes` field in a request body:
absent, explicit `null`, or a string. -/
inductive NoteVal where
  | absent
  | nullv
  | str (s : String)
deriving DecidableEq, Repr

/-- A raw request body as seen by the Zod schema: each of the four known
keys either absent (`none`) or carrying a string; unknown keys are
stripped by Zod and so are not modelled. -/
structure Body where
  name : Option String
  category : Option String
  status : Option String
  notes : NoteVal
deriving DecidableEq, Repr

/-- The `status` enumeration of `ItemSchema`:
`z.enum(["active", "retired", "repair"])`. -/
def validStatuses : List String := ["active", "retired", "repair"]

/-- Result of validating one field: the parsed value, or one Zod issue
`(field, message)`. -/
inductive FieldResult (α : Type) where
  | ok (a : α)
  | err (e : String × String)
deriving DecidableEq, Repr

/-- Issues contributed by one field to `error.flatten()`. -/
def FieldResult.errs {α : Type} : FieldResult α → List (String × String)
  | .ok _ => []
  | .err e => [e]

/-- Embeds `name: z.string().min(1)` on the full (creation) schema. -/
def checkNameReq (v : Option String) : FieldResult String :=
  match v with
  | none => .err ("name", "Required")
  | some s => if 1 ≤ s.length then .ok s else .err ("name", "too_small")

/-- Embeds `category: z.string().min(1)` on the full (creation) schema. -/
def checkCategoryReq (v : Option String) : FieldResult String :=
  match v with
  | none => .err ("category", "Required")
  | some s => if 1 ≤ s.length then .ok s else .err ("category", "too_small")

/-- Embeds `status: z.enum([...]).default("active")` on the full schema: an
absent value takes the default, a present value must be in the enum. -/
def checkStatusReq (v : Option String) : FieldResult String :=
  match v with
  | none => .ok "active"
  | some s => if validStatuses.contains s then .ok s else .err ("status", "invalid_enum_value")

/-- Output of `ItemSchema.safeParse` on success: `status` has received
its default, `notes` keeps its three-state JSON value. -/
structure CreateData where
  name : String
  category : String
  status : String
  notes : NoteVal
deriving DecidableEq, Repr

/-- Embeds `ItemSchema.safeParse`: validate all fields, collecting every issue;
succeed only when every field validates. -/
def safeParseCreate (b : Body) : Except (List (String × String)) CreateData :=
  match checkNameReq b.name, checkCategoryReq b.category, checkStatusReq b.status with
  | .ok n, .ok c, .ok st => .ok ⟨n, c, st, b.notes⟩
  | rn, rc, rs => .error (rn.errs ++ rc.errs ++ rs.errs)

/-- Field `name` under `.partial()`: absent is allowed and omitted from the
parsed data; a present string must still satisfy `min(1)`. -/
def checkNameOpt (v : Option String) : FieldResult (Option String) :=
  match v with
  | none => .ok none
  | some s => if 1 ≤ s.length then .ok (some s) else .err ("name", "too_small")

/-- Field `category` under `.partial()`. -/
def checkCategoryOpt (v : Option String) : FieldResult (Option String) :=
  match v with
  | none => .ok none
  | some s => if 1 ≤ s.length then .ok (some s) else .err ("category", "too_small")

/-- Field `status` under `.partial()`: the optional wrapper short-circuits on
`undefined`, so the `default("active")` is not applied; a present value
must be in the enum. -/
def checkStatusOpt (v : Option String) : FieldResult (Option String) :=
  match v with
  | none => .ok none
  | some s => if validStatuses.contains s then .ok (some s) else .err ("status", "invalid_enum_value")

/-- Field `notes` under `.partial()`: absent is omitted from the parsed data
(`none`), explicit null parses to `null` (`some none`), a string parses
to itself (`some (some s)`). -/
def checkNotesOpt (v : NoteVal) : Option (Option String) :=
  match v with
  | .absent => none
  | .nullv => some none
  | .str s => some (some s)

/-- Output of `ItemSchema.partial().safeParse` on success: for each
field, `none` means the key was absent from the request body and is
omitted from the parsed data. -/
structure UpdateData where
  name : Option String
  category : Option String
  status : Option String
  notes : Option (Option String)
deriving DecidableEq, Repr

/-- Embeds `ItemSchema.partial().safeParse`. -/
def safeParseUpdate (b : Body) : Except (List (String × String)) UpdateData :=
  match checkNameOpt b.name, checkCategoryOpt b.category, checkStatusOpt b.status with
  | .ok n, .ok c, .ok st => .ok ⟨n, c, st, checkNotesOpt b.notes⟩
  | rn, rc, rs => .error (rn.errs ++ rc.errs ++ rs.errs)

/-- The JSON responses the router produces. -/
inductive Response where
  | okList (items : List Item)
  | created (item : Item)
  | okItem (item : Item)
  | okDeleted (item : Item)
  | badRequest (errors : List (String × String))
  | notFound
deriving DecidableEq, Repr

/-- Relation `ORDER BY created_at DESC`: newest first. -/
def byCreatedDesc (a b : Item) : Prop := b.created_at ≤ a.created_at

instance : DecidableRel byCreatedDesc :=
fun a b => inferInstanceAs (Decidable (b.created_at ≤ a.created_at))

instance : IsTotal Item byCreatedDesc :=
⟨fun a b => Nat.le_total b.created_at a.created_at⟩

instance : IsTrans Item byCreatedDesc :=
⟨fun _ _ _ h1 h2 => Nat.le_trans h2 h1⟩

/-- Embeds `SELECT * FROM items ORDER BY created_at DESC`. -/
def selectAllOrdered (s : Store) : List Item :=
  s.rows.insertionSort byCreatedDesc

/-- Embeds `router.get("/")`: the handler ignores the request (bound as `_req`,
so in particular any `search` query parameter) and returns all rows
ordered by creation time descending.  No state change. -/
def routerGet (search : Option String) (s : Store) : Response × Store :=
  match search with
  | _ => (.okList (selectAllOrdered s), s)

/-- Embeds `notes ?? null`: the INSERT parameter built from the parsed notes. -/
def noteParam : NoteVal → Option String
  | .absent => none
  | .nullv => none
  | .str s => some s

/-- Embeds `router.post("/")`: validate with `ItemSchema`; on failure answer 400
with the issues and change nothing; on success INSERT the row (the store
assigns `id` from its sequence and `created_at` from its clock) and
answer 201 with the persisted row. -/
def routerPost (b : Body) (s : Store) : Response × Store :=
  match safeParseCreate b with
  | .error es => (.badRequest es, s)
  | .ok d =>
    let item : Item :=
      { id := s.nextId, name := d.name, category := d.category,
        status := d.status, notes := noteParam d.notes, created_at := s.nextTime }
    (.created item, ⟨s.rows ++ [item], s.nextId + 1, s.nextTime + 1⟩)

/-- Embeds `\x7b ...current.rows[0], ...parsed.data \x7d`: supplied fields overwrite,
absent fields keep the current row's values; `id` and `created_at` are
never in the parsed data (Zod strips unknown keys) so they come from the
current row. -/
def mergeRow (cur : Item) (d : UpdateData) : Item :=
  { id := cur.id,
    name := d.name.getD cur.name,
    category := d.category.getD cur.category,
    status := d.status.getD cur.status,
    notes := d.notes.getD cur.notes,
    created_at := cur.created_at }

/-- Embeds `router.put("/:id")`: validate with `ItemSchema.partial()`; 400 on
failure.  SELECT the current row by id; 404 if absent.  Otherwise merge
the parsed fields over it and UPDATE `name, category, status, notes`
WHERE id, answering 200 with the updated row. -/
def routerPut (id : Nat) (b : Body) (s : Store) : Response × Store :=
  match safeParseUpdate b with
  | .error es => (.badRequest es, s)
  | .ok d =>
    match s.rows.find? (fun r => r.id == id) with
    | none => (.notFound, s)
    | some cur =>
      let merged := mergeRow cur d
      let rows := s.rows.map (fun r => if r.id == id then merged else r)
      (.okItem merged, ⟨rows, s.nextId, s.nextTime⟩)

/-- Embeds `router.delete("/:id")`: `DELETE FROM items WHERE id=$1 RETURNING *`;
404 when no row matched, otherwise 200 with the deleted row under a
confirmation message. -/
def routerDelete (id : Nat) (s : Store) : Response × Store :=
  match s.rows.find? (fun r => r.id == id) with
  | none => (.notFound, s)
  | some r => (.okDeleted r, ⟨s.rows.filter (fun x => !(x.id == id)), s.nextId, s.nextTime⟩)

/-- The invariant the claims are about, together with the freshness facts
the store's sequences guarantee (every assigned `id` is below the
sequence value, every stamp below the clock), which make it inductive. -/
def StoreWf (s : Store) : Prop :=
  (s.rows.map Item.id).Nodup ∧
  (∀ r ∈ s.rows, 1 ≤ r.name.length ∧ 1 ≤ r.category.length ∧ r.status ∈ validStatuses) ∧
  (∀ r ∈ s.rows, r.id < s.nextId ∧ r.created_at < s.nextTime)

/-! ### Helper lemmas about the validation layer -/

lemma checkNameReq_ok {v : Option String} {n : String} (h : checkNameReq v = .ok n) :
    v = some n ∧ 1 ≤ n.length := by
  cases v with
  | none => simp [checkNameReq] at h
  | some s =>
    by_cases hs : 1 ≤ s.length
    · simp [checkNameReq, hs] at h; exact ⟨by rw [h], h ▸ hs⟩
    · simp [checkNameReq, hs] at h

lemma checkCategoryReq_ok {v : Option String} {n : String} (h : checkCategoryReq v = .ok n) :
    v = some n ∧ 1 ≤ n.length := by
  cases v with
  | none => simp [checkCategoryReq] at h
  | some s =>
    by_cases hs : 1 ≤ s.length
    · simp [checkCategoryReq, hs] at h; exact ⟨by rw [h], h ▸ hs⟩
    · simp [checkCategoryReq, hs] at h

lemma checkStatusReq_ok {v : Option String} {st : String} (h : checkStatusReq v = .ok st) :
    st ∈ validStatuses := by
  cases v with
  | none => simp [checkStatusReq] at h; simp [← h, validStatuses]
  | some s =>
    by_cases hs : s ∈ validStatuses
    · simp [checkStatusReq, hs] at h
      exact h ▸ hs
    · simp [checkStatusReq, hs] at h

lemma safeParseCreate_ok {b : Body} {d : CreateData} (h : safeParseCreate b = .ok d) :
    1 ≤ d.name.length ∧ 1 ≤ d.category.length ∧ d.status ∈ validStatuses ∧
      d.notes = b.notes := by
  unfold safeParseCreate at h
  split at h
  · next n c st hn hc hs =>
    cases h
    exact ⟨(checkNameReq_ok hn).2, (checkCategoryReq_ok hc).2, checkStatusReq_ok hs, rfl⟩
  · next => exact absurd h (by simp)

lemma checkNameOpt_ok {v o : Option String} (h : checkNameOpt v = .ok o) :
    o = v ∧ ∀ n, o = some n → 1 ≤ n.length := by
  cases v with
  | none => simp [checkNameOpt] at h; simp [← h]
  | some s =>
    by_cases hs : 1 ≤ s.length
    · simp [checkNameOpt, hs] at h
      refine ⟨by rw [← h], ?_⟩
      rintro n hn; rw [← h] at hn; cases hn; exact hs
    · simp [checkNameOpt, hs] at h

lemma checkCategoryOpt_ok {v o : Option String} (h : checkCategoryOpt v = .ok o) :
    o = v ∧ ∀ n, o = some n → 1 ≤ n.length := by
  cases v with
  | none => simp [checkCategoryOpt] at h; simp [← h]
  | some s =>
    by_cases hs : 1 ≤ s.length
    · simp [checkCategoryOpt, hs] at h
      refine ⟨by rw [← h], ?_⟩
      rintro n hn; rw [← h] at hn; cases hn; exact hs
    · simp [checkCategoryOpt, hs] at h

lemma checkStatusOpt_ok {v o : Option String} (h : checkStatusOpt v = .ok o) :
    o = v ∧ ∀ st, o = some st → st ∈ validStatuses := by
  cases v with
  | none => simp [checkStatusOpt] at h; simp [← h]
  | some s =>
    by_cases hs : s ∈ validStatuses
    · simp [checkStatusOpt, hs] at h
      refine ⟨by rw [← h], ?_⟩
      rintro st hst; rw [← h] at hst; cases hst
      exact hs
    · simp [checkStatusOpt, hs] at h

lemma safeParseUpdate_ok {b : Body} {d : UpdateData} (h : safeParseUpdate b = .ok d) :
    d.name = b.name ∧ d.category = b.category ∧ d.status = b.status ∧
      d.notes = checkNotesOpt b.notes ∧
      (∀ n, d.name = some n → 1 ≤ n.length) ∧
      (∀ c, d.category = some c → 1 ≤ c.length) ∧
      (∀ st, d.status = some st → st ∈ validStatuses) := by
  unfold safeParseUpdate at h
  split at h
  · next n c st hn hc hs =>
    cases h
    obtain ⟨hn1, hn2⟩ := checkNameOpt_ok hn
    obtain ⟨hc1, hc2⟩ := checkCategoryOpt_ok hc
    obtain ⟨hs1, hs2⟩ := checkStatusOpt_ok hs
    exact ⟨hn1, hc1, hs1, rfl, hn2, hc2, hs2⟩
  · next => exact absurd h (by simp)

/-! ### Helper lemmas about the store -/

lemma find?_id_eq {l : List Item} (hnd : (l.map Item.id).Nodup) {it : Item} (hm : it ∈ l) :
    l.find? (fun r => r.id == it.id) = some it := by
  induction l with
  | nil => cases hm
  | cons a l ih =>
    rcases List.mem_cons.mp hm with rfl | hm'
    · simp [List.find?]
    · have ha : a.id ≠ it.id := by
        intro he
        have : a.id ∈ l.map Item.id := he ▸ List.mem_map_of_mem Item.id hm'
        exact (List.nodup_cons.mp (by simpa using hnd)).1 this
      have : (a.id == it.id) = false := by simpa using ha
      simp only [List.find?, this]
      exact ih (List.nodup_cons.mp (by simpa using hnd)).2 hm'

lemma mem_eq_of_id_eq {l : List Item} (hnd : (l.map Item.id).Nodup) {r r' : Item}
    (hr : r ∈ l) (hr' : r' ∈ l) (hid : r.id = r'.id) : r = r' :=
  List.inj_on_of_nodup_map hnd hr hr' hid

lemma length_filter_ne {l : List Item} (hnd : (l.map Item.id).Nodup) {it : Item}
    (hm : it ∈ l) :
    (l.filter (fun x => !(x.id == it.id))).length + 1 = l.length := by
  induction l with
  | nil => cases hm
  | cons a l ih =>
    rcases List.mem_cons.mp hm with rfl | hm'
    · have : ∀ x ∈ l, (!(x.id == it.id)) = true := by
        intro x hx
        have : x.id ≠ it.id := by
          intro he
          have : it.id ∈ l.map Item.id := he ▸ List.mem_map_of_mem Item.id hx
          exact (List.nodup_cons.mp (by simpa using hnd)).1 this
        simpa using this
      simp only [List.filter]
      simp only [beq_self_eq_true, Bool.not_true]
      rw [List.filter_eq_self.mpr this]
      simp
    · have ha : a.id ≠ it.id := by
        intro he
        have : a.id ∈ l.map Item.id := he ▸ List.mem_map_of_mem Item.id hm'
        exact (List.nodup_cons.mp (by simpa using hnd)).1 this
      have hab : (!(a.id == it.id)) = true := by simpa using ha
      simp only [List.filter, hab, List.length_cons]
      rw [← ih (List.nodup_cons.mp (by simpa using hnd)).2 hm']

/-! ### Preservation of the store invariant by each handler -/

lemma storeWf_get {s : Store} (h : StoreWf s) (q : Option String) :
    StoreWf (routerGet q s).2 := h

lemma storeWf_post {s : Store} (h : StoreWf s) (b : Body) :
    StoreWf (routerPost b s).2 := by
  obtain ⟨hnd, hfields, hfresh⟩ := h
  cases hp : safeParseCreate b with
  | error es => simp only [routerPost, hp]; exact ⟨hnd, hfields, hfresh⟩
  | ok d =>
    obtain ⟨hn, hc, hst, -⟩ := safeParseCreate_ok hp
    simp only [routerPost, hp]
    refine ⟨?_, ?_, ?_⟩
    · rw [List.map_append]
      refine List.Nodup.append hnd (by simp) ?_
      intro x hx hx'
      simp at hx'
      obtain ⟨r, hr, hrid⟩ := List.mem_map.mp hx
      have := (hfresh r hr).1
      omega
    · intro r hr
      rcases List.mem_append.mp hr with hr' | hr'
      · exact hfields r hr'
      · simp at hr'
        subst hr'
        exact ⟨hn, hc, hst⟩
    · intro r hr
      rcases List.mem_append.mp hr with hr' | hr'
      · have := hfresh r hr'
        exact ⟨Nat.lt_succ_of_lt this.1, Nat.lt_succ_of_lt this.2⟩
      · simp at hr'
        subst hr'
        exact ⟨Nat.lt_succ_self _, Nat.lt_succ_self _⟩

lemma storeWf_delete {s : Store} (h : StoreWf s) (id : Nat) :
    StoreWf (routerDelete id s).2 := by
  obtain ⟨hnd, hfields, hfresh⟩ := h
  cases hf : s.rows.find? (fun r => r.id == id) with
  | none => simp only [routerDelete, hf]; exact ⟨hnd, hfields, hfresh⟩
  | some r =>
    simp only [routerDelete, hf]
    refine ⟨?_, ?_, ?_⟩
    · exact List.Nodup.sublist ((List.filter_sublist _).map Item.id) hnd
    · intro r' hr'
      exact hfields r' (List.mem_of_mem_filter hr')
    · intro r' hr'
      exact hfresh r' (List.mem_of_mem_filter hr')

lemma storeWf_put {s : Store} (h : StoreWf s) (id : Nat) (b : Body) :
    StoreWf (routerPut id b s).2 := by
  obtain ⟨hnd, hfields, hfresh⟩ := h
  cases hp : safeParseUpdate b with
  | error es => simp only [routerPut, hp]; exact ⟨hnd, hfields, hfresh⟩
  | ok d =>
    cases hf : s.rows.find? (fun r => r.id == id) with
    | none => simp only [routerPut, hp, hf]; exact ⟨hnd, hfields, hfresh⟩
    | some cur =>
      have hcur_mem : cur ∈ s.rows := List.mem_of_find?_eq_some hf
      have hcur_id : cur.id = id := by
        have := List.find?_some hf
        simpa using this
      obtain ⟨-, -, -, -, hdn, hdc, hds⟩ := safeParseUpdate_ok hp
      simp only [routerPut, hp, hf]
      refine ⟨?_, ?_, ?_⟩
      · have hmap : (s.rows.map (fun r => if r.id == id then mergeRow cur d else r)).map Item.id
            = s.rows.map Item.id := by
          rw [List.map_map]
          apply List.map_congr_left
          intro r hr
          by_cases hrid : r.id = id
          · simp [Function.comp, hrid, mergeRow, hcur_id]
          · simp [Function.comp, hrid]
        rw [hmap]
        exact hnd
      · intro r' hr'
        obtain ⟨r, hr, hfr⟩ := List.mem_map.mp hr'
        by_cases hrid : r.id = id
        · have hmr : r' = mergeRow cur d := by
            rw [← hfr]; simp [hrid]
          subst hmr
          have hcf := hfields cur hcur_mem
          refine ⟨?_, ?_, ?_⟩
          · cases hdna : d.name with
            | none => simpa [mergeRow, hdna] using hcf.1
            | some n =>
              simpa [mergeRow, hdna] using hdn n hdna
          · cases hdca : d.category with
            | none => simpa [mergeRow, hdca] using hcf.2.1
            | some c =>
              simpa [mergeRow, hdca] using hdc c hdca
          · cases hdsa : d.status with
            | none => simpa [mergeRow, hdsa] using hcf.2.2
            | some st =>
              simpa [mergeRow, hdsa] using hds st hdsa
        · have hmr : r' = r := by
            rw [← hfr]; simp [hrid]
          rw [hmr]
          exact hfields r hr
      · intro r' hr'
        obtain ⟨r, hr, hfr⟩ := List.mem_map.mp hr'
        by_cases hrid : r.id = id
        · have hmr : r' = mergeRow cur d := by
            rw [← hfr]; simp [hrid]
          subst hmr
          have := hfresh cur hcur_mem
          exact ⟨by simpa [mergeRow] using this.1, by simpa [mergeRow] using this.2⟩
        · have hmr : r' = r := by
            rw [← hfr]; simp [hrid]
          rw [hmr]
          exact hfresh r hr

/-! ### Concrete sample data used by the witnesses -/

/-- A concrete stored row used to instantiate the universally quantified
theorems. -/
def sampleItem : Item := ⟨1, "Lenovo L14", "Laptop", "active", some "x", 0⟩

/-- A concrete store holding `sampleItem`. -/
def sampleStore : Store := ⟨[sampleItem], 2, 1⟩

lemma sampleStore_wf : StoreWf sampleStore := by
  unfold StoreWf sampleStore sampleItem validStatuses
  refine ⟨by decide, ?_, ?_⟩ <;> · intro r hr; simp at hr; subst hr; decide

lemma emptyStore_wf : StoreWf emptyStore := by
  refine ⟨List.nodup_nil, ?_, ?_⟩ <;> · intro r hr; cases hr

/-! ### The claims -/

/-- C1: for every item present in the store, a PUT whose body supplies
only `name` (with a valid, nonempty value) succeeds and changes only that
item's `name`: the updated row keeps the prior `category`, `status` and
`notes` (and the response returns exactly that row), because the absent
fields are omitted from the validated data and the merge over the
existing row leaves them untouched. -/
theorem put_only_name_frame (s : Store) (it : Item) (n : String)
    (hwf : StoreWf s) (hmem : it ∈ s.rows) (hn : 1 ≤ n.length) :
    routerPut it.id ⟨some n, none, none, .absent⟩ s =
      (.okItem { it with name := n },
       ⟨s.rows.map (fun r => if r.id == it.id then { it with name := n } else r),
        s.nextId, s.nextTime⟩) := by
  have hp : safeParseUpdate ⟨some n, none, none, .absent⟩ =
      .ok ⟨some n, none, none, none⟩ := by
    simp [safeParseUpdate, checkNameOpt, checkCategoryOpt, checkStatusOpt, checkNotesOpt, hn]
  have hf := find?_id_eq hwf.1 hmem
  simp only [routerPut, hp, hf]
  rfl

/-- C1 witness: the theorem at a one-row store. -/
theorem put_only_name_frame_witness :
    routerPut 1 ⟨some "T480", none, none, .absent⟩ sampleStore =
      (.okItem ⟨1, "T480", "Laptop", "active", some "x", 0⟩,
       ⟨[⟨1, "T480", "Laptop", "active", some "x", 0⟩], 2, 1⟩) := by
  have h := put_only_name_frame sampleStore sampleItem "T480" sampleStore_wf
    (by simp [sampleStore]) (by decide)
  simpa [sampleStore, sampleItem] using h

/-- C2 counterexample: on a partial update of a row whose stored `notes`
is the string `"x"`, a body omitting `notes` and a body with `notes`
explicitly null produce different outcomes — the absent body leaves
`notes` at `some "x"` while the explicit null overwrites it with null —
refuting that the two have the same effect and both overwrite with
null. -/
theorem put_notes_absent_vs_null_differ :
    routerPut 1 ⟨none, none, none, .absent⟩ sampleStore ≠
      routerPut 1 ⟨none, none, none, .nullv⟩ sampleStore ∧
    (routerPut 1 ⟨none, none, none, .absent⟩ sampleStore).1 =
      .okItem ⟨1, "Lenovo L14", "Laptop", "active", some "x", 0⟩ := by
  constructor
  · decide
  · decide

/-- C2 (amended): on a partial update, supplying `notes` explicitly as
null overwrites the stored `notes` with null, while omitting `notes`
leaves the stored item entirely unchanged — the explicit-null vs. absent
distinction does carry clear-vs-leave-unchanged semantics. -/
theorem put_notes_null_clears_absent_keeps (s : Store) (it : Item)
    (hwf : StoreWf s) (hmem : it ∈ s.rows) :
    routerPut it.id ⟨none, none, none, .nullv⟩ s =
      (.okItem { it with notes := none },
       ⟨s.rows.map (fun r => if r.id == it.id then { it with notes := none } else r),
        s.nextId, s.nextTime⟩) ∧
    routerPut it.id ⟨none, none, none, .absent⟩ s =
      (.okItem it,
       ⟨s.rows.map (fun r => if r.id == it.id then it else r),
        s.nextId, s.nextTime⟩) := by
  have hf := find?_id_eq hwf.1 hmem
  constructor
  · have hp : safeParseUpdate ⟨none, none, none, .nullv⟩ =
        .ok ⟨none, none, none, some none⟩ := by
      simp [safeParseUpdate, checkNameOpt, checkCategoryOpt, checkStatusOpt, checkNotesOpt]
    simp only [routerPut, hp, hf]
    rfl
  · have hp : safeParseUpdate ⟨none, none, none, .absent⟩ =
        .ok ⟨none, none, none, none⟩ := by
      simp [safeParseUpdate, checkNameOpt, checkCategoryOpt, checkStatusOpt, checkNotesOpt]
    simp only [routerPut, hp, hf]
    rfl

/-- C2 (amended) witness: the amended theorem at a one-row store whose
`notes` is `some "x"`. -/
theorem put_notes_null_clears_absent_keeps_witness :
    routerPut 1 ⟨none, none, none, .nullv⟩ sampleStore =
      (.okItem ⟨1, "Lenovo L14", "Laptop", "active", none, 0⟩,
       ⟨[⟨1, "Lenovo L14", "Laptop", "active", none, 0⟩], 2, 1⟩) ∧
    routerPut 1 ⟨none, none, none, .absent⟩ sampleStore =
      (.okItem ⟨1, "Lenovo L14", "Laptop", "active", some "x", 0⟩,
       ⟨[⟨1, "Lenovo L14", "Laptop", "active", some "x", 0⟩], 2, 1⟩) := by
  have h := put_notes_null_clears_absent_keeps sampleStore sampleItem sampleStore_wf
    (by simp [sampleStore])
  obtain ⟨h1, h2⟩ := h
  constructor
  · simpa [sampleStore, sampleItem] using h1
  · simpa [sampleStore, sampleItem] using h2

/-- C9: the GET handler binds the request as `_req` and never reads it,
so for every store and any two values of the `search` query parameter the
response and the resulting store are identical: the list result does not
depend on `search` in any way. -/
theorem get_independent_of_search (s : Store) (q1 q2 : Option String) :
    routerGet q1 s = routerGet q2 s := rfl

/-- C3: starting from any store satisfying the invariant — unique `id`s,
non-empty `name` and `category`, `status` among the three enumerated
values (together with the freshness of the store's `id` and timestamp
sequences, which every reachable store enjoys) — every operation (list,
create, update, delete), on any input, yields a store satisfying the same
invariant: no operation ever persists an empty name or category or a
status outside the enumeration, nor a duplicate id. -/
theorem storeWf_preserved (s : Store) (hwf : StoreWf s) :
    (∀ q, StoreWf (routerGet q s).2) ∧
    (∀ b, StoreWf (routerPost b s).2) ∧
    (∀ id b, StoreWf (routerPut id b s).2) ∧
    (∀ id, StoreWf (routerDelete id s).2) :=
  ⟨fun q => storeWf_get hwf q, fun b => storeWf_post hwf b,
   fun id b => storeWf_put hwf id b, fun id => storeWf_delete hwf id⟩

/-- C3 witness: the invariant after a concrete create, update and delete
on a concrete well-formed store. -/
theorem storeWf_preserved_witness :
    StoreWf (routerPost ⟨some "Dock", some "Accessory", some "repair", .nullv⟩ sampleStore).2 ∧
    StoreWf (routerPut 1 ⟨some "T480", none, none, .absent⟩ sampleStore).2 ∧
    StoreWf (routerDelete 1 sampleStore).2 :=
  ⟨(storeWf_preserved sampleStore sampleStore_wf).2.1 _,
   (storeWf_preserved sampleStore sampleStore_wf).2.2.1 1 _,
   (storeWf_preserved sampleStore sampleStore_wf).2.2.2 1⟩

/-- C4: every creation payload whose `name` or `category` is the empty
string, or whose `status` is present but outside the enumeration, is
rejected with a 400 response carrying a non-empty list of field-level
issues, and the store is returned unchanged. -/
theorem post_invalid_rejected (b : Body) (s : Store)
    (h : b.name = some "" ∨ b.category = some "" ∨
         ∃ v, b.status = some v ∧ v ∉ validStatuses) :
    ∃ es, routerPost b s = (.badRequest es, s) ∧ es ≠ [] := by
  have herr : ∃ es, safeParseCreate b = .error es ∧ es ≠ [] := by
    cases hn : checkNameReq b.name with
    | ok n =>
      cases hc : checkCategoryReq b.category with
      | ok c =>
        cases hs : checkStatusReq b.status with
        | ok st =>
          exfalso
          rcases h with h1 | h2 | ⟨v, hv, hnv⟩
          · rw [h1] at hn; simp [checkNameReq] at hn
          · rw [h2] at hc; simp [checkCategoryReq] at hc
          · rw [hv] at hs; simp [checkStatusReq, hnv] at hs
        | err e =>
          exact ⟨[e], by simp [safeParseCreate, hn, hc, hs, FieldResult.errs], by simp⟩
      | err e =>
        cases hs : checkStatusReq b.status with
        | ok st =>
          exact ⟨[e], by simp [safeParseCreate, hn, hc, hs, FieldResult.errs], by simp⟩
        | err e2 =>
          exact ⟨[e, e2], by simp [safeParseCreate, hn, hc, hs, FieldResult.errs], by simp⟩
    | err e =>
      cases hc : checkCategoryReq b.category with
      | ok c =>
        cases hs : checkStatusReq b.status with
        | ok st =>
          exact ⟨[e], by simp [safeParseCreate, hn, hc, hs, FieldResult.errs], by simp⟩
        | err e3 =>
          exact ⟨[e, e3], by simp [safeParseCreate, hn, hc, hs, FieldResult.errs], by simp⟩
      | err e2 =>
        cases hs : checkStatusReq b.status with
        | ok st =>
          exact ⟨[e, e2], by simp [safeParseCreate, hn, hc, hs, FieldResult.errs], by simp⟩
        | err e3 =>
          exact ⟨[e, e2, e3], by simp [safeParseCreate, hn, hc, hs, FieldResult.errs], by simp⟩
  obtain ⟨es, hes, hne⟩ := herr
  exact ⟨es, by simp [routerPost, hes], hne⟩

/-- C4 witness: a creation payload with empty `name` at a concrete store. -/
theorem post_invalid_rejected_witness :
    ∃ es, routerPost ⟨some "", some "Laptop", none, .absent⟩ sampleStore =
      (.badRequest es, sampleStore) ∧ es ≠ [] :=
  post_invalid_rejected ⟨some "", some "Laptop", none, .absent⟩ sampleStore (Or.inl rfl)

/-- C5: for every `id` carried by no stored row, a PUT with any body that
passes the partial-update validation answers 404 and returns the store
completely unchanged. -/
theorem put_missing_id_not_found (id : Nat) (b : Body) (s : Store) (d : UpdateData)
    (hp : safeParseUpdate b = .ok d) (hid : ∀ r ∈ s.rows, r.id ≠ id) :
    routerPut id b s = (.notFound, s) := by
  have hf : s.rows.find? (fun r => r.id == id) = none := by
    rw [List.find?_eq_none]
    intro r hr
    simpa using hid r hr
  simp [routerPut, hp, hf]

/-- C5 witness: updating the absent id 99 of a concrete store. -/
theorem put_missing_id_not_found_witness :
    routerPut 99 ⟨some "T480", none, none, .absent⟩ sampleStore = (.notFound, sampleStore) :=
  put_missing_id_not_found 99 ⟨some "T480", none, none, .absent⟩ sampleStore
    ⟨some "T480", none, none, none⟩ rfl (by decide)

/-- C6: deleting an `id` present in the store removes exactly that one
row (the count drops by one; every other row is kept, and only they are),
and answers 200 with the removed row's prior representation under the
confirmation message; a second delete of the same `id`, or any delete of
an absent `id`, answers 404 with no state change. -/
theorem delete_semantics (s : Store) (it : Item) (hwf : StoreWf s) (hmem : it ∈ s.rows) :
    routerDelete it.id s =
      (.okDeleted it, ⟨s.rows.filter (fun x => !(x.id == it.id)), s.nextId, s.nextTime⟩) ∧
    (routerDelete it.id s).2.rows.length + 1 = s.rows.length ∧
    (∀ r ∈ s.rows, r.id ≠ it.id → r ∈ (routerDelete it.id s).2.rows) ∧
    (∀ r ∈ (routerDelete it.id s).2.rows, r ∈ s.rows ∧ r.id ≠ it.id) ∧
    routerDelete it.id (routerDelete it.id s).2 = (.notFound, (routerDelete it.id s).2) ∧
    (∀ j, (∀ r ∈ s.rows, r.id ≠ j) → routerDelete j s = (.notFound, s)) := by
  have hf := find?_id_eq hwf.1 hmem
  have hdel : routerDelete it.id s =
      (.okDeleted it, ⟨s.rows.filter (fun x => !(x.id == it.id)), s.nextId, s.nextTime⟩) := by
    simp only [routerDelete, hf]
  refine ⟨hdel, ?_, ?_, ?_, ?_, ?_⟩
  · rw [hdel]
    exact length_filter_ne hwf.1 hmem
  · intro r hr hne
    rw [hdel]
    simp only [List.mem_filter]
    exact ⟨hr, by simpa using hne⟩
  · intro r hr
    rw [hdel] at hr
    simp only [List.mem_filter] at hr
    exact ⟨hr.1, by simpa using hr.2⟩
  · rw [hdel]
    have hf2 : (s.rows.filter (fun x => !(x.id == it.id))).find? (fun r => r.id == it.id)
        = none := by
      rw [List.find?_eq_none]
      intro r hr
      have h2 := (List.mem_filter.mp hr).2
      simpa using h2
    simp only [routerDelete, hf2]
  · intro j hj
    have hfj : s.rows.find? (fun r => r.id == j) = none := by
      rw [List.find?_eq_none]
      intro r hr
      simpa using hj r hr
    simp only [routerDelete, hfj]

/-- C6 witness: the first conjunct of the theorem at a one-row store. -/
theorem delete_semantics_witness :
    routerDelete 1 sampleStore = (.okDeleted sampleItem, ⟨[], 2, 1⟩) := by
  have h := (delete_semantics sampleStore sampleItem sampleStore_wf (by simp [sampleStore])).1
  simpa [sampleStore, sampleItem] using h

/-- C7: every creation payload that omits `status` but carries a
non-empty `name` and `category` succeeds: the persisted row — which is
also the row returned to the caller with 201 — has `status = "active"`,
the default the schema applies. -/
theorem post_default_status (b : Body) (s : Store) (n c : String)
    (hbn : b.name = some n) (hn : 1 ≤ n.length)
    (hbc : b.category = some c) (hc : 1 ≤ c.length)
    (hbs : b.status = none) :
    routerPost b s =
      (.created ⟨s.nextId, n, c, "active", noteParam b.notes, s.nextTime⟩,
       ⟨s.rows ++ [⟨s.nextId, n, c, "active", noteParam b.notes, s.nextTime⟩],
        s.nextId + 1, s.nextTime + 1⟩) := by
  obtain ⟨bn, bc, bs, bo⟩ := b
  simp only at hbn hbc hbs
  subst hbn
  subst hbc
  subst hbs
  have hp : safeParseCreate ⟨some n, some c, none, bo⟩ = .ok ⟨n, c, "active", bo⟩ := by
    simp [safeParseCreate, checkNameReq, checkCategoryReq, checkStatusReq, hn, hc]
  simp only [routerPost, hp]

/-- C7 witness: the spec's own example payload over the empty store. -/
theorem post_default_status_witness :
    routerPost ⟨some "Lenovo L14", some "Laptop", none, .absent⟩ emptyStore =
      (.created ⟨1, "Lenovo L14", "Laptop", "active", none, 0⟩,
       ⟨[⟨1, "Lenovo L14", "Laptop", "active", none, 0⟩], 2, 1⟩) := by
  have h := post_default_status ⟨some "Lenovo L14", some "Laptop", none, .absent⟩ emptyStore
    "Lenovo L14" "Laptop" rfl (by decide) rfl (by decide) rfl
  simpa [emptyStore, noteParam] using h

/-- C10: no update — successful or not — ever changes any stored row's
`id` or `created_at`: the rows' `(id, created_at)` pairs are identical
before and after any PUT, and when the PUT succeeds the returned row
carries the `id` and `created_at` of the pre-existing row it updated,
because the UPDATE statement rewrites only `name`, `category`, `status`
and `notes`. -/
theorem put_preserves_id_created_at (id : Nat) (b : Body) (s : Store) (hwf : StoreWf s) :
    (routerPut id b s).2.rows.map (fun r => (r.id, r.created_at)) =
      s.rows.map (fun r => (r.id, r.created_at)) ∧
    (∀ u, (routerPut id b s).1 = .okItem u →
      ∃ r ∈ s.rows, r.id = id ∧ u.id = r.id ∧ u.created_at = r.created_at) := by
  cases hp : safeParseUpdate b with
  | error es =>
    simp only [routerPut, hp]
    exact ⟨trivial, fun u hu => by cases hu⟩
  | ok d =>
    cases hf : s.rows.find? (fun r => r.id == id) with
    | none =>
      simp only [routerPut, hp, hf]
      exact ⟨trivial, fun u hu => by cases hu⟩
    | some cur =>
      have hcm : cur ∈ s.rows := List.mem_of_find?_eq_some hf
      have hci : cur.id = id := by
        have := List.find?_some hf
        simpa using this
      simp only [routerPut, hp, hf]
      constructor
      · rw [List.map_map]
        apply List.map_congr_left
        intro r hr
        by_cases hrid : r.id = id
        · have hrc : r = cur := mem_eq_of_id_eq hwf.1 hr hcm (by rw [hrid, hci])
          subst hrc
          simp [Function.comp, hrid, mergeRow]
        · simp [Function.comp, hrid]
      · intro u hu
        injection hu with h
        subst h
        exact ⟨cur, hcm, hci, rfl, rfl⟩

/-- C10 witness: a PUT changing every mutable field of a concrete row
keeps its `(id, created_at)` pairs. -/
theorem put_preserves_id_created_at_witness :
    (routerPut 1 ⟨some "T480", some "Notebook", some "repair", .nullv⟩ sampleStore).2.rows.map
        (fun r => (r.id, r.created_at)) =
      sampleStore.rows.map (fun r => (r.id, r.created_at)) :=
  (put_preserves_id_created_at 1 ⟨some "T480", some "Notebook", some "repair", .nullv⟩
    sampleStore sampleStore_wf).1

/-! ### Sequences of mutating requests, for the listing count property -/

/-- One mutating client request: a create (POST) or a delete (DELETE). -/
inductive Event where
  | create (b : Body)
  | del (id : Nat)
deriving DecidableEq, Repr

/-- The store after handling one mutating request. -/
def applyEvent (s : Store) : Event → Store
  | .create b => (routerPost b s).2
  | .del i => (routerDelete i s).2

/-- The store after handling a sequence of mutating requests. -/
def runEvents (s : Store) : List Event → Store
  | [] => s
  | e :: es => runEvents (applyEvent s e) es

/-- The request succeeds: a create passes validation, a delete targets an
`id` present in the store at that moment. -/
def eventOk (s : Store) : Event → Prop
  | .create b => (safeParseCreate b).isOk = true
  | .del i => ∃ r ∈ s.rows, r.id = i

/-- Every request in the sequence succeeds against the store as it stands
when the request is handled. -/
def eventsOk (s : Store) : List Event → Prop
  | [] => True
  | e :: es => eventOk s e ∧ eventsOk (applyEvent s e) es

def isCreate : Event → Bool
  | .create _ => true
  | .del _ => false

/-- The number N of creates in a request sequence. -/
def countCreates (es : List Event) : Nat := (es.filter isCreate).length

/-- The number M of deletes in a request sequence. -/
def countDeletes (es : List Event) : Nat := (es.filter (fun e => !isCreate e)).length

lemma countCreates_cons_create (b : Body) (es : List Event) :
    countCreates (.create b :: es) = countCreates es + 1 := by
  simp [countCreates, isCreate, List.filter]

lemma countCreates_cons_del (i : Nat) (es : List Event) :
    countCreates (.del i :: es) = countCreates es := by
  simp [countCreates, isCreate, List.filter]

lemma countDeletes_cons_create (b : Body) (es : List Event) :
    countDeletes (.create b :: es) = countDeletes es := by
  simp [countDeletes, isCreate, List.filter]

lemma countDeletes_cons_del (i : Nat) (es : List Event) :
    countDeletes (.del i :: es) = countDeletes es + 1 := by
  simp [countDeletes, isCreate, List.filter]

lemma storeWf_applyEvent {s : Store} (hwf : StoreWf s) (e : Event) :
    StoreWf (applyEvent s e) := by
  cases e with
  | create b => exact storeWf_post hwf b
  | del i => exact storeWf_delete hwf i

lemma applyEvent_create_length {s : Store} {b : Body}
    (hok : (safeParseCreate b).isOk = true) :
    (applyEvent s (.create b)).rows.length = s.rows.length + 1 := by
  cases hp : safeParseCreate b with
  | error es =>
    rw [hp] at hok
    simp [Except.isOk, Except.toBool] at hok
  | ok d => simp [applyEvent, routerPost, hp]

lemma applyEvent_del_length {s : Store} {i : Nat} (hwf : StoreWf s)
    (hok : ∃ r ∈ s.rows, r.id = i) :
    (applyEvent s (.del i)).rows.length + 1 = s.rows.length := by
  obtain ⟨r, hr, hri⟩ := hok
  subst hri
  have hf := find?_id_eq hwf.1 hr
  simp only [applyEvent, routerDelete, hf]
  exact length_filter_ne hwf.1 hr

lemma runEvents_length {es : List Event} : ∀ {s : Store}, StoreWf s → eventsOk s es →
    (runEvents s es).rows.length + countDeletes es = s.rows.length + countCreates es := by
  induction es with
  | nil =>
    intro s _ _
    simp [runEvents, countDeletes, countCreates]
  | cons e es ih =>
    intro s hwf hok
    obtain ⟨h1, h2⟩ := hok
    have hwf2 := storeWf_applyEvent hwf e
    have hih := ih hwf2 h2
    cases e with
    | create b =>
      have hlen := applyEvent_create_length (s := s) h1
      rw [countCreates_cons_create, countDeletes_cons_create]
      simp only [runEvents] at hih ⊢
      omega
    | del i =>
      have hlen := applyEvent_del_length hwf h1
      rw [countCreates_cons_del, countDeletes_cons_del]
      simp only [runEvents] at hih ⊢
      omega

/-- C8: the list operation answers with every stored row (a permutation
of the table), ordered by `created_at` descending (newest first), and
has no side effect on the store; and after any sequence of N successful
creates and M successful deletes starting from the empty store, it
returns exactly N − M items. -/
theorem list_semantics :
    (∀ q s, routerGet q s = (.okList (selectAllOrdered s), s)) ∧
    (∀ s, (selectAllOrdered s).Perm s.rows) ∧
    (∀ s, (selectAllOrdered s).Sorted byCreatedDesc) ∧
    (∀ es, eventsOk emptyStore es →
      (selectAllOrdered (runEvents emptyStore es)).length =
        countCreates es - countDeletes es) := by
  refine ⟨fun q s => rfl, fun s => List.perm_insertionSort _ _,
    fun s => List.sorted_insertionSort _ _, ?_⟩
  intro es hok
  have h := runEvents_length emptyStore_wf hok
  have hlen : (selectAllOrdered (runEvents emptyStore es)).length =
      (runEvents emptyStore es).rows.length := List.length_insertionSort _ _
  rw [hlen]
  have h0 : emptyStore.rows.length = 0 := rfl
  rw [h0] at h
  omega

/-- C8 witness: two creates then one delete, listed from the empty store:
2 − 1 = 1 item remains. -/
theorem list_semantics_witness :
    (selectAllOrdered (runEvents emptyStore
        [.create ⟨some "A", some "C1", none, .absent⟩,
         .create ⟨some "B", some "C2", none, .absent⟩,
         .del 1])).length =
      countCreates [Event.create ⟨some "A", some "C1", none, .absent⟩,
         Event.create ⟨some "B", some "C2", none, .absent⟩, Event.del 1] -
      countDeletes [Event.create ⟨some "A", some "C1", none, .absent⟩,
         Event.create ⟨some "B", some "C2", none, .absent⟩, Event.del 1] :=
  list_semantics.2.2.2
    [.create ⟨some "A", some "C1", none, .absent⟩,
     .create ⟨some "B", some "C2", none, .absent⟩, .del 1]
    ⟨rfl, rfl, ⟨⟨1, "A", "C1", "active", none, 0⟩, by decide, rfl⟩, trivial⟩

end Inventory
